import Mathlib

/-!
# xpano: panorama grouping, progress accounting and pairwise matching

A shallow embedding of `xpano/algorithm/algorithm.cc` (`FindPanos`, `MatchImages`)
and of the progress counters declared in `xpano/pipeline/stitcher_pipeline.h`,
together with the properties established about them.

Conventions.
* C++ `int` image indices are never used in arithmetic by `FindPanos`; they are
  embedded as `Int`.
* `kMatchThreshold` comes from `constants.h`; every definition takes it as the
  parameter `kMatchThreshold : Nat`.
* `std::vector` is embedded as `List`; `push_back` appends at the end.
-/

namespace xpano.algorithm

/-! ## Data model -/

/-- The OpenCV correspondence record `cv::DMatch`. The 32-bit float `distance`
is carried as its bit pattern; floating-point operations on it are supplied from
outside wherever the code uses them. -/
structure DMatch where
  queryIdx : Int
  trainIdx : Int
  imgIdx : Int
  distance : Nat
deriving DecidableEq

/-- The pairwise relationship between the images `id1` and `id2`, with the list
of accepted correspondences between their keypoints (the member `matches`; the
name is reserved in Lean, hence the underscore). -/
structure Match where
  id1 : Int
  id2 : Int
  matches_ : List DMatch
deriving DecidableEq

/-- A panorama candidate: the ordered sequence of image indices. `FindPanos`
reads and writes no other member of the C++ struct. -/
structure Pano where
  ids : List Int
deriving DecidableEq

/-! ## `FindPanos` (algorithm.cc, lines 70 to 102) -/

/-- Body of the first loop: `if (match.matches.size() > kMatchThreshold)
good_matches.emplace_back(match.id1, match.id2)`. -/
def pushGood (kMatchThreshold : Nat) (good_matches : List (Int × Int)) (m : Match) :
    List (Int × Int) :=
  if m.matches_.length > kMatchThreshold then good_matches ++ [(m.id1, m.id2)]
  else good_matches

/-- The first loop of `FindPanos`: the vector `good_matches`. -/
def goodMatches (kMatchThreshold : Nat) (ms : List Match) : List (Int × Int) :=
  ms.foldl (pushGood kMatchThreshold) []

/-- Body of the second loop, on the state `(result, next)`:
`if (next.ids.back() == match.first) next.ids.push_back(match.second)`, otherwise
`result.push_back(next)` and `next.ids` becomes `[match.first, match.second]`. -/
def chainStep (st : List Pano × Pano) (m : Int × Int) : List Pano × Pano :=
  if st.2.ids.getLast? = some m.1 then (st.1, ⟨st.2.ids ++ [m.2]⟩)
  else (st.1 ++ [st.2], ⟨[m.1, m.2]⟩)

/-- The function `FindPanos`. The loop `for (i = 1; i < good_matches.size(); i++)`
visits the elements after the first one, in order. -/
def FindPanos (kMatchThreshold : Nat) (ms : List Match) : List Pano :=
  match goodMatches kMatchThreshold ms with
  | [] => []
  | g0 :: later =>
    let st := later.foldl chainStep ([], ⟨[g0.1, g0.2]⟩)
    st.1 ++ [st.2]

/-- Body of the second loop with every vector access written as a lookup:
`good_matches[i]` and `next.ids.back()`; `none` stands for an access outside the
vector. -/
def chainStepChecked (good_matches : List (Int × Int)) (st : List Pano × Pano) (i : Nat) :
    Option (List Pano × Pano) := do
  let m ← good_matches[i]?
  let back ← st.2.ids.getLast?
  if back = m.1 then pure (st.1, ⟨st.2.ids ++ [m.2]⟩)
  else pure (st.1 ++ [st.2], ⟨[m.1, m.2]⟩)

/-- The function `FindPanos` with every vector access written as a lookup, the
loop running over the indices `1, ..., good_matches.size() - 1`. -/
def FindPanosChecked (kMatchThreshold : Nat) (ms : List Match) : Option (List Pano) :=
  let good_matches := goodMatches kMatchThreshold ms
  if good_matches.isEmpty then some []
  else do
    let g0 ← good_matches[0]?
    let st ← (List.range' 1 (good_matches.length - 1)).foldlM
      (chainStepChecked good_matches) ([], ⟨[g0.1, g0.2]⟩)
    pure (st.1 ++ [st.2])

/-! ## Reference definitions, following the specification's wording -/

/-- The accepted matches: those with more than `kMatchThreshold` correspondences,
in input order, as `(id1, id2)` pairs. -/
def acceptedPairs (kMatchThreshold : Nat) (ms : List Match) : List (Int × Int) :=
  (ms.filter (fun m => decide (kMatchThreshold < m.matches_.length))).map
    (fun m => (m.id1, m.id2))

/-- Greedy chaining with a pano in progress: `cur` is the current pano and
`last` its last id. A match whose first id is `last` extends the current pano;
any other match closes it and starts a new one. -/
def chainFrom (cur : List Int) (last : Int) : List (Int × Int) → List (List Int)
  | [] => [cur]
  | (a, b) :: rest =>
    if a = last then chainFrom (cur ++ [b]) b rest
    else cur :: chainFrom [a, b] b rest

/-- The greedy chain reference: start a pano with the first pair, then chain. -/
def greedyChain : List (Int × Int) → List (List Int)
  | [] => []
  | (a, b) :: rest => chainFrom [a, b] b rest

/-- A match between images `a` and `b` carrying `c` correspondences. -/
def mkMatch (a b : Int) (c : Nat) : Match :=
  ⟨a, b, List.replicate c ⟨0, 0, 0, 0⟩⟩

/-! ## Vocabulary for adjacency inputs -/

/-- The input lists the adjacency matches `(s, s+1), (s+1, s+2), ...` in
increasing order, one match per list position. -/
def AdjacentFrom : Nat → List Match → Prop
  | _, [] => True
  | s, m :: ms => m.id1 = (s : Int) ∧ m.id2 = (s : Int) + 1 ∧ AdjacentFrom (s + 1) ms

/-- The match at list position `i` exists and has more than `kMatchThreshold`
correspondences. -/
def acceptedAt (kMatchThreshold : Nat) (ms : List Match) (i : Nat) : Bool :=
  match ms[i]? with
  | some m => decide (kMatchThreshold < m.matches_.length)
  | none => false

/-- The image indices `lo, lo+1, ..., hi`. -/
def consecutiveIds (lo hi : Nat) : List Int :=
  (List.range' lo (hi + 1 - lo)).map (fun i : Nat => (i : Int))

/-- The indices `lo..hi` form a maximal run for the link predicate `S` (`S i`
says that `i` and `i+1` are linked): every link inside the run is present, and
the run can be extended neither to the left nor to the right. -/
def IsRun (S : Nat → Prop) (lo hi : Nat) : Prop :=
  lo < hi ∧ (∀ i, lo ≤ i → i < hi → S i) ∧ (∀ i, i + 1 = lo → ¬ S i) ∧ ¬ S hi

/-- A maximal run of consecutive image indices linked by accepted matches, for
an input whose position `i` holds the match `(i, i+1)`. -/
def IsMaximalRun (kMatchThreshold : Nat) (ms : List Match) (lo hi : Nat) : Prop :=
  IsRun (fun i => acceptedAt kMatchThreshold ms i = true) lo hi

/-! ## `MatchImages` (algorithm.cc, lines 17 to 68) -/

/-- An OpenCV `cv::Point2f`, as the bit patterns of its two floats. -/
abbrev Point2f := Nat × Nat

/-- An OpenCV `cv::Mat`, as rows of element bit patterns; `empty()` is `[]`. -/
abbrev Mat := List (List Nat)

/-- An OpenCV `cv::KeyPoint`; `MatchImages` reads its position `pt` only. -/
structure KeyPoint where
  pt : Point2f
deriving DecidableEq

/-- What `MatchImages` reads of an `Image`: `GetKeypoints()`, `GetDescriptors()`. -/
structure Image where
  keypoints : List KeyPoint
  descriptors : Mat
deriving DecidableEq

/-- The OpenCV operations and floating-point tests that `MatchImages` calls.
* `knnMatch q t k`: `cv::FlannBasedMatcher::knnMatch(q, t, matches, k)`;
* `ratioBelow m0 m1`: the test `m0.distance / m1.distance < 0.8`, in floating point;
* `findHomography src dst`: `cv::findHomography(src, dst, cv::RANSAC, 3)`;
* `perspectiveTransform src h`: the projected points;
* `normBelow p q`: the test `norm(p - q) < 3`, in floating point. -/
structure CvOps where
  knnMatch : Mat → Mat → Nat → List (List DMatch)
  ratioBelow : DMatch → DMatch → Bool
  findHomography : List Point2f → List Point2f → Mat
  perspectiveTransform : List Point2f → Mat → List Point2f
  normBelow : Point2f → Point2f → Bool

/-- A vector element at a C++ `int` index; `none` outside the vector. -/
def atIdx {α : Type} (xs : List α) (i : Int) : Option α :=
  if 0 ≤ i then xs[i.toNat]? else none

/-- Body of the loop "filter by first/second ratio": reads `match[0]` and
`match[1]` of a k-nn row and keeps `match[0]` when the ratio test succeeds.
`none` when the row has fewer than two entries. -/
def ratioStep (cv : CvOps) (good_matches : List DMatch) (row : List DMatch) :
    Option (List DMatch) := do
  let m0 ← row[0]?
  let m1 ← row[1]?
  if cv.ratioBelow m0 m1 then pure (good_matches ++ [m0]) else pure good_matches

/-- The loop "filter by first/second ratio" over the k-nn rows. -/
def ratioFilter (cv : CvOps) (knn : List (List DMatch)) : Option (List DMatch) :=
  knn.foldlM (ratioStep cv) []

/-- The loop "filter outliers": keeps `good_matches[i]` when the projected source
point lies within the reprojection threshold of the destination point. -/
def filterOutliers (cv : CvOps) (good_matches : List DMatch)
    (dst_points dst_points_proj : List Point2f) : Option (List DMatch) :=
  (List.range good_matches.length).foldlM
    (fun (inliers : List DMatch) (i : Nat) => do
      let d ← dst_points[i]?
      let dp ← dst_points_proj[i]?
      let g ← good_matches[i]?
      if cv.normBelow d dp then pure (inliers ++ [g]) else pure inliers)
    []

/-- The part of `MatchImages` from "estimate homography" on (lines 40 to 67). -/
def homographyStage (cv : CvOps) (img1 img2 : Image) (good_matches : List DMatch) :
    Option (List DMatch) := do
  let src_points ← good_matches.mapM
    (fun m => (atIdx img1.keypoints m.queryIdx).map (fun kp => kp.pt))
  let dst_points ← good_matches.mapM
    (fun m => (atIdx img2.keypoints m.trainIdx).map (fun kp => kp.pt))
  let h_mat := cv.findHomography src_points dst_points
  if h_mat.isEmpty then pure []
  else
    let dst_points_proj := cv.perspectiveTransform src_points h_mat
    filterOutliers cv good_matches dst_points dst_points_proj

/-- The function `MatchImages`; `none` stands for an access outside a vector. -/
def MatchImages (cv : CvOps) (img1 img2 : Image) : Option (List DMatch) :=
  if img1.keypoints.isEmpty || img2.keypoints.isEmpty then some []
  else do
    let good_matches ← ratioFilter cv (cv.knnMatch img1.descriptors img2.descriptors 2)
    if good_matches.length < 4 then pure []
    else homographyStage cv img1 img2 good_matches

/-- The candidate correspondences that pass the ratio test: the best match of
every k-nn row whose best and second-best match satisfy `ratioBelow`. -/
def ratioSurvivors (cv : CvOps) (knn : List (List DMatch)) : List DMatch :=
  knn.filterMap (fun row =>
    match row with
    | m0 :: m1 :: _ => if cv.ratioBelow m0 m1 then some m0 else none
    | _ => none)

/-- A small instance of the OpenCV operations, for evaluating `MatchImages`: one
k-nn row per query descriptor, with distances 1 and 2; `h` is the matrix that
homography estimation returns; projection is the identity. -/
def exampleCv (h : Mat) : CvOps :=
  { knnMatch := fun q _ _ =>
      (List.range q.length).map (fun i : Nat => [⟨i, i, 0, 1⟩, ⟨i, i, 0, 2⟩])
    ratioBelow := fun m0 m1 => decide (10 * m0.distance < 8 * m1.distance)
    findHomography := fun _ _ => h
    perspectiveTransform := fun src _ => src
    normBelow := fun p q => decide (p = q) }

/-- An image with `n` keypoints and `n` descriptor rows, for evaluating
`MatchImages`. -/
def exampleImage (n : Nat) : Image :=
  ⟨(List.range n).map (fun i => ⟨(i, i)⟩), List.replicate n [0]⟩

/-! ## Reading the matches off a pano -/

/-- The neighbouring id pairs of a pano, in order: `(ids[0], ids[1])`,
`(ids[1], ids[2])`, and so on. -/
def neighbours (ids : List Int) : List (Int × Int) :=
  ids.zip ids.tail

/-! ## `ToString` (algorithm.cc, lines 112 to 121) -/

/-- The value `cv::Stitcher::OK` of the OpenCV enum `cv::Stitcher::Status`; a
status is embedded as its underlying integer. -/
def Stitcher.OK : Int := 0

/-- The value `cv::Stitcher::ERR_NEED_MORE_IMGS`. -/
def Stitcher.ERR_NEED_MORE_IMGS : Int := 1

/-- The value `cv::Stitcher::ERR_HOMOGRAPHY_EST_FAIL`. -/
def Stitcher.ERR_HOMOGRAPHY_EST_FAIL : Int := 2

/-- The value `cv::Stitcher::ERR_CAMERA_PARAMS_ADJUST_FAIL`. -/
def Stitcher.ERR_CAMERA_PARAMS_ADJUST_FAIL : Int := 3

/-- The function `ToString`: the `switch` over the status, with its `default`. -/
def ToString (status : Int) : String :=
  if status = Stitcher.OK then "OK"
  else if status = Stitcher.ERR_NEED_MORE_IMGS then "ERR_NEED_MORE_IMGS"
  else if status = Stitcher.ERR_HOMOGRAPHY_EST_FAIL then "ERR_HOMOGRAPHY_EST_FAIL"
  else if status = Stitcher.ERR_CAMERA_PARAMS_ADJUST_FAIL then "ERR_CAMERA_PARAMS_ADJUST_FAIL"
  else "ERR_UNKNOWN"

end xpano.algorithm

namespace xpano.pipeline

/-! ## Progress accounting (stitcher_pipeline.h, lines 71 to 100) -/

/-- The stage labels of `enum class ProgressType`. -/
inductive ProgressType where
  | kNone
  | kLoadingImages
  | kStitchingPano
  | kAutoCrop
  | kDetectingKeypoints
  | kMatchingImages
  | kExport
  | kInpainting
deriving DecidableEq

/-- The snapshot `struct ProgressReport`. -/
structure ProgressReport where
  type : ProgressType
  tasks_done : Int
  num_tasks : Int
deriving DecidableEq

/-- The private members of `class ProgressMonitor`. -/
structure ProgressMonitor where
  type_ : ProgressType
  done_ : Int
  num_tasks_ : Int
deriving DecidableEq

/-- A value of a 32-bit `int` after two's complement wrap-around. -/
def wrapInt32 (x : Int) : Int :=
  (x + 2 ^ 31) % 2 ^ 32 - 2 ^ 31

/-- A freshly constructed monitor, from the member initialisers
`type_{ProgressType::kNone}`, `done_ = 0`, `num_tasks_ = 0`. -/
def ProgressMonitor.fresh : ProgressMonitor :=
  ⟨ProgressType.kNone, 0, 0⟩

/-- Modelled from the spec: the body of `ProgressMonitor::Reset` is in
`stitcher_pipeline.cc`, which is not among the sources; the header declares it.
"`Reset(stage, total)` establishes a new stage and total task count, zeroing the
done counter." -/
def ProgressMonitor.Reset (pm : ProgressMonitor) (type : ProgressType) (num_tasks : Int) :
    ProgressMonitor :=
  { pm with type_ := type, done_ := 0, num_tasks_ := num_tasks }

/-- Modelled from the spec: the body of `ProgressMonitor::NotifyTaskDone` is in
`stitcher_pipeline.cc`, which is not among the sources; the header declares it.
"`NotifyTaskDone()` increments the done counter by one"; an atomic `int`
increment wraps around. -/
def ProgressMonitor.NotifyTaskDone (pm : ProgressMonitor) : ProgressMonitor :=
  { pm with done_ := wrapInt32 (pm.done_ + 1) }

/-- Modelled from the spec: the body of `ProgressMonitor::Progress` is in
`stitcher_pipeline.cc`, which is not among the sources; the header declares it.
"`Progress()` returns an immutable snapshot" of stage label, tasks done and
tasks total. -/
def ProgressMonitor.Progress (pm : ProgressMonitor) : ProgressReport :=
  ⟨pm.type_, pm.done_, pm.num_tasks_⟩

/-- The monitor after `n` further calls of `NotifyTaskDone`. -/
def ProgressMonitor.notifyTimes : Nat → ProgressMonitor → ProgressMonitor
  | 0, pm => pm
  | n + 1, pm => ProgressMonitor.notifyTimes n pm.NotifyTaskDone

/-! ## The worker pool size (stitcher_pipeline.h, lines 136 to 137) -/

/-- The function `std::max` on unsigned values: `(a < b) ? b : a`. -/
def stdMax (a b : Nat) : Nat :=
  if a < b then b else a

/-- The argument that constructs `pool_`:
`std::max(2U, std::thread::hardware_concurrency())`. -/
def poolThreads (hardware_concurrency : Nat) : Nat :=
  stdMax 2 hardware_concurrency

end xpano.pipeline

/-! # Theorems -/

namespace xpano.algorithm

/-! ## The accepted list and the chain loop -/

theorem foldl_pushGood (k : Nat) (ms : List Match) :
    ∀ acc : List (Int × Int), ms.foldl (pushGood k) acc = acc ++ acceptedPairs k ms := by
  induction ms with
  | nil => intro acc; simp [acceptedPairs]
  | cons m ms ih =>
    intro acc
    rw [List.foldl_cons, ih]
    by_cases h : k < m.matches_.length
    · simp [pushGood, acceptedPairs, h]
    · simp [pushGood, acceptedPairs, h]

theorem goodMatches_eq_acceptedPairs (k : Nat) (ms : List Match) :
    goodMatches k ms = acceptedPairs k ms := by
  simp [goodMatches, foldl_pushGood]

theorem foldl_chainStep (rest : List (Int × Int)) :
    ∀ (res : List Pano) (cur : List Int) (last : Int), cur.getLast? = some last →
      (rest.foldl chainStep (res, ⟨cur⟩)).1 ++ [(rest.foldl chainStep (res, ⟨cur⟩)).2]
        = res ++ (chainFrom cur last rest).map Pano.mk := by
  induction rest with
  | nil => intro res cur last _; simp [chainFrom]
  | cons m rest ih =>
    intro res cur last hlast
    obtain ⟨a, b⟩ := m
    by_cases h : a = last
    · subst h
      have hstep : chainStep (res, ⟨cur⟩) (a, b) = (res, ⟨cur ++ [b]⟩) := by
        simp [chainStep, hlast]
      rw [List.foldl_cons, hstep, ih res (cur ++ [b]) b (by simp)]
      simp [chainFrom]
    · have hstep : chainStep (res, ⟨cur⟩) (a, b) = (res ++ [⟨cur⟩], ⟨[a, b]⟩) := by
        have : ¬ last = a := fun e => h e.symm
        simp [chainStep, hlast, this]
      rw [List.foldl_cons, hstep, ih (res ++ [Pano.mk cur]) [a, b] b (by simp)]
      simp [chainFrom, h]

theorem FindPanos_eq_greedyChain (k : Nat) (ms : List Match) :
    FindPanos k ms = (greedyChain (acceptedPairs k ms)).map Pano.mk := by
  unfold FindPanos
  rw [goodMatches_eq_acceptedPairs]
  cases hacc : acceptedPairs k ms with
  | nil => simp [greedyChain]
  | cons g later =>
    obtain ⟨a, b⟩ := g
    simp only []
    rw [foldl_chainStep later [] [a, b] b (by simp)]
    simp [greedyChain]

theorem chainFrom_chain' (R : Int → Int → Prop) (rest : List (Int × Int))
    (hrest : ∀ ab ∈ rest, R ab.1 ab.2) :
    ∀ (cur : List Int) (last : Int), cur.getLast? = some last → List.Chain' R cur →
      ∀ p ∈ chainFrom cur last rest, List.Chain' R p := by
  induction rest with
  | nil =>
    intro cur last _ hcur p hp
    simp only [chainFrom, List.mem_singleton] at hp
    subst hp
    exact hcur
  | cons m rest ih =>
    intro cur last hlast hcur p hp
    obtain ⟨a, b⟩ := m
    have hab : R a b := hrest (a, b) (by simp)
    have hrest' : ∀ ab ∈ rest, R ab.1 ab.2 := fun ab h => hrest ab (by simp [h])
    by_cases h : a = last
    · subst h
      simp only [chainFrom, if_true] at hp
      refine ih hrest' (cur ++ [b]) b (by simp) ?_ p hp
      refine List.Chain'.append hcur (List.chain'_singleton b) ?_
      intro x hx y hy
      rw [hlast] at hx
      simp only [List.head?_cons, Option.mem_def, Option.some.injEq] at hx hy
      subst hx; subst hy
      exact hab
    · simp only [chainFrom, h, if_false, List.mem_cons] at hp
      rcases hp with hp | hp
      · subst hp; exact hcur
      · refine ih hrest' [a, b] b (by simp) ?_ p hp
        simp [hab]

theorem greedyChain_chain' (R : Int → Int → Prop) (pairs : List (Int × Int))
    (hpairs : ∀ ab ∈ pairs, R ab.1 ab.2) :
    ∀ p ∈ greedyChain pairs, List.Chain' R p := by
  cases pairs with
  | nil => intro p hp; simp [greedyChain] at hp
  | cons m rest =>
    obtain ⟨a, b⟩ := m
    intro p hp
    simp only [greedyChain] at hp
    have hab : R a b := hpairs (a, b) (by simp)
    exact chainFrom_chain' R rest (fun ab h => hpairs ab (by simp [h])) [a, b] b (by simp)
      (by simp [hab]) p hp

theorem mem_acceptedPairs {k : Nat} {ms : List Match} {ab : Int × Int}
    (h : ab ∈ acceptedPairs k ms) :
    ∃ m ∈ ms, m.id1 = ab.1 ∧ m.id2 = ab.2 ∧ k < m.matches_.length := by
  simp only [acceptedPairs, List.mem_map, List.mem_filter, decide_eq_true_eq] at h
  obtain ⟨m, ⟨hm, hk⟩, rfl⟩ := h
  exact ⟨m, hm, rfl, rfl, hk⟩

theorem acceptedPairs_filter (k : Nat) (ms : List Match) :
    acceptedPairs k (ms.filter (fun m => !decide (m.matches_.length ≤ k)))
      = acceptedPairs k ms := by
  unfold acceptedPairs
  rw [List.filter_filter]
  congr 1
  apply List.filter_congr
  intro m _
  by_cases h : k < m.matches_.length
  · simp [h]
  · simp [h]

theorem chainFrom_ne_nil (rest : List (Int × Int)) :
    ∀ (cur : List Int) (last : Int), chainFrom cur last rest ≠ [] := by
  induction rest with
  | nil => intro cur last; simp [chainFrom]
  | cons m rest ih =>
    intro cur last
    obtain ⟨a, b⟩ := m
    by_cases h : a = last
    · simp only [chainFrom, h, if_true]; exact ih _ _
    · simp [chainFrom, h]

theorem FindPanos_eq_nil_iff (k : Nat) (ms : List Match) :
    FindPanos k ms = [] ↔ ∀ m ∈ ms, m.matches_.length ≤ k := by
  rw [FindPanos_eq_greedyChain]
  cases hacc : acceptedPairs k ms with
  | nil =>
    simp only [greedyChain, List.map_nil, true_iff]
    intro m hm
    by_contra hlt
    have : (m.id1, m.id2) ∈ acceptedPairs k ms := by
      simp only [acceptedPairs, List.mem_map, List.mem_filter, decide_eq_true_eq]
      exact ⟨m, ⟨hm, by omega⟩, rfl⟩
    rw [hacc] at this
    simp at this
  | cons g later =>
    obtain ⟨a, b⟩ := g
    have hne : (greedyChain ((a, b) :: later)).map Pano.mk ≠ [] := by
      simp [greedyChain, chainFrom_ne_nil]
    simp only [hne, false_iff]
    intro hall
    obtain ⟨m, hm, -, -, hk⟩ := @mem_acceptedPairs k ms (a, b)
      (by rw [hacc]; simp)
    have := hall m hm
    omega

theorem chainStepChecked_eq (good : List (Int × Int)) (st : List Pano × Pano) (i : Nat)
    (m : Int × Int) (hm : good[i]? = some m) (hst : st.2.ids ≠ []) :
    chainStepChecked good st i = some (chainStep st m) ∧ (chainStep st m).2.ids ≠ [] := by
  obtain ⟨back, hback⟩ : ∃ back, st.2.ids.getLast? = some back := by
    cases hl : st.2.ids.getLast? with
    | none => exact absurd (List.getLast?_eq_none_iff.1 hl) hst
    | some back => exact ⟨back, rfl⟩
  by_cases h : back = m.1
  · simp [chainStepChecked, chainStep, hm, hback, h]
  · simp [chainStepChecked, chainStep, hm, hback, h]

theorem foldlM_chainStepChecked (later : List (Int × Int)) :
    ∀ (pre : List (Int × Int)) (st : List Pano × Pano), st.2.ids ≠ [] →
      (List.range' pre.length later.length).foldlM (chainStepChecked (pre ++ later)) st
        = some (later.foldl chainStep st) := by
  induction later with
  | nil => intro pre st _; simp [List.range']
  | cons m later ih =>
    intro pre st hst
    have hm : (pre ++ m :: later)[pre.length]? = some m := by
      rw [List.getElem?_append_right (le_refl _)]; simp
    obtain ⟨hstep, hne⟩ := chainStepChecked_eq (pre ++ m :: later) st pre.length m hm hst
    have hih := ih (pre ++ [m]) (chainStep st m) hne
    simp only [List.length_append, List.length_singleton, List.append_assoc,
      List.singleton_append] at hih
    simp only [List.length_cons, List.range', List.foldlM_cons, hstep, List.foldl_cons]
    exact hih

theorem FindPanosChecked_eq (k : Nat) (ms : List Match) :
    FindPanosChecked k ms = some (FindPanos k ms) := by
  unfold FindPanosChecked FindPanos
  cases hg : goodMatches k ms with
  | nil => simp
  | cons g later =>
    have h := foldlM_chainStepChecked later [g] ([], ⟨[g.1, g.2]⟩) (by simp)
    simp only [List.length_singleton, List.singleton_append] at h
    simp [h]

/-! ## Adjacency inputs and maximal runs -/

theorem IsRun_congr {S T : Nat → Prop} (h : ∀ i, S i ↔ T i) (lo hi : Nat) :
    IsRun S lo hi ↔ IsRun T lo hi := by
  unfold IsRun
  constructor
  · rintro ⟨h1, h2, h3, h4⟩
    exact ⟨h1, fun i hi1 hi2 => (h i).1 (h2 i hi1 hi2), fun i hi1 hs => h3 i hi1 ((h i).2 hs),
      fun hs => h4 ((h hi).2 hs)⟩
  · rintro ⟨h1, h2, h3, h4⟩
    exact ⟨h1, fun i hi1 hi2 => (h i).2 (h2 i hi1 hi2), fun i hi1 hs => h3 i hi1 ((h i).1 hs),
      fun hs => h4 ((h hi).1 hs)⟩

theorem IsRun_split (a b : Nat) (T : Nat → Prop) (hab : a < b) (hT : ∀ i, T i → b < i)
    (lo hi : Nat) :
    IsRun (fun i => (a ≤ i ∧ i < b) ∨ T i) lo hi ↔ (lo = a ∧ hi = b) ∨ IsRun T lo hi := by
  unfold IsRun
  constructor
  · rintro ⟨hlt, hall, hpre, hpost⟩
    rcases hall lo le_rfl hlt with hlo | hlo
    · left
      have h1 : lo = a := by
        by_contra hne
        exact hpre (lo - 1) (by omega) (Or.inl ⟨by omega, by omega⟩)
      have h2 : ¬ hi < b := fun h => hpost (Or.inl ⟨by omega, h⟩)
      have h3 : ¬ b < hi := by
        intro h
        rcases hall b (by omega) h with hb | hb
        · omega
        · have := hT b hb
          omega
      exact ⟨h1, by omega⟩
    · right
      have hs := hT lo hlo
      refine ⟨hlt, ?_, ?_, ?_⟩
      · intro i hi1 hi2
        rcases hall i hi1 hi2 with h | h
        · omega
        · exact h
      · intro i hi1 hs
        exact hpre i hi1 (Or.inr hs)
      · intro hs
        exact hpost (Or.inr hs)
  · rintro (⟨rfl, rfl⟩ | ⟨hlt, hall, hpre, hpost⟩)
    · refine ⟨hab, fun i hi1 hi2 => Or.inl ⟨hi1, hi2⟩, ?_, ?_⟩
      · rintro i hi1 (h | h)
        · omega
        · have := hT i h
          omega
      · rintro (h | h)
        · omega
        · have := hT hi h
          omega
    · have hs := hT lo (hall lo le_rfl hlt)
      refine ⟨hlt, fun i hi1 hi2 => Or.inr (hall i hi1 hi2), ?_, ?_⟩
      · rintro i hi1 (h | h)
        · omega
        · exact hpre i hi1 h
      · rintro (h | h)
        · omega
        · exact hpost h

theorem mem_consecutiveIds {lo hi : Nat} {x : Int} (h : x ∈ consecutiveIds lo hi) :
    ∃ i : Nat, lo ≤ i ∧ i ≤ hi ∧ x = (i : Int) := by
  simp only [consecutiveIds, List.mem_map, List.mem_range'_1] at h
  obtain ⟨i, ⟨h1, h2⟩, rfl⟩ := h
  exact ⟨i, h1, by omega, rfl⟩

theorem consecutiveIds_succ (a b : Nat) (h : a ≤ b + 1) :
    consecutiveIds a b ++ [(b : Int) + 1] = consecutiveIds a (b + 1) := by
  unfold consecutiveIds
  have e : b + 1 + 1 - a = (b + 1 - a) + 1 := by omega
  rw [e, List.range'_1_concat, List.map_append]
  have e2 : a + (b + 1 - a) = b + 1 := by omega
  simp [e2]

theorem consecutiveIds_pair (s : Nat) :
    consecutiveIds s (s + 1) = [(s : Int), (s : Int) + 1] := by
  unfold consecutiveIds
  have e : s + 1 + 1 - s = 2 := by omega
  rw [e]
  simp [List.range']

theorem consecutiveIds_getLast? (a b : Nat) (h : a ≤ b) :
    (consecutiveIds a b).getLast? = some (b : Int) := by
  cases b with
  | zero =>
    have : a = 0 := by omega
    subst this
    simp [consecutiveIds, List.range']
  | succ b =>
    rw [← consecutiveIds_succ a b h]
    simp

theorem acceptedAt_shift (k : Nat) (m : Match) (ms : List Match) (s i : Nat) :
    (s ≤ i ∧ acceptedAt k (m :: ms) (i - s) = true) ↔
      (i = s ∧ k < m.matches_.length) ∨ (s + 1 ≤ i ∧ acceptedAt k ms (i - (s + 1)) = true) := by
  rcases Nat.lt_trichotomy i s with h | h | h
  · constructor
    · rintro ⟨h1, -⟩; omega
    · rintro (⟨h1, -⟩ | ⟨h1, -⟩) <;> omega
  · subst h
    simp [acceptedAt]
  · obtain ⟨j, rfl⟩ : ∃ j, i = s + 1 + j := ⟨i - (s + 1), by omega⟩
    have e1 : s + 1 + j - s = j + 1 := by omega
    have e2 : s + 1 + j - (s + 1) = j := by omega
    rw [e1, e2]
    have e3 : acceptedAt k (m :: ms) (j + 1) = acceptedAt k ms j := by
      simp [acceptedAt]
    rw [e3]
    constructor
    · rintro ⟨-, h2⟩; exact Or.inr ⟨by omega, h2⟩
    · rintro (⟨h1, -⟩ | ⟨-, h2⟩)
      · omega
      · exact ⟨by omega, h2⟩

theorem acceptedPairs_cons_of_lt (k : Nat) (m : Match) (ms : List Match)
    (h : k < m.matches_.length) :
    acceptedPairs k (m :: ms) = (m.id1, m.id2) :: acceptedPairs k ms := by
  simp [acceptedPairs, h]

theorem acceptedPairs_cons_of_not_lt (k : Nat) (m : Match) (ms : List Match)
    (h : ¬ k < m.matches_.length) :
    acceptedPairs k (m :: ms) = acceptedPairs k ms := by
  simp [acceptedPairs, h]

theorem chainFrom_adjacent (k : Nat) :
    ∀ (ms : List Match) (s a b : Nat), a < b → b ≤ s → AdjacentFrom s ms →
      (∀ p, p ∈ chainFrom (consecutiveIds a b) (b : Int) (acceptedPairs k ms) ↔
        ∃ lo hi, p = consecutiveIds lo hi ∧
          IsRun (fun i => (a ≤ i ∧ i < b) ∨ (s ≤ i ∧ acceptedAt k ms (i - s) = true)) lo hi) ∧
      List.Pairwise (fun p q : List Int => ∀ x ∈ p, ∀ y ∈ q, x < y)
        (chainFrom (consecutiveIds a b) (b : Int) (acceptedPairs k ms)) := by
  intro ms
  induction ms with
  | nil =>
    intro s a b hab hbs _
    have hrun : ∀ lo hi, IsRun (fun i => (a ≤ i ∧ i < b) ∨
        (s ≤ i ∧ acceptedAt k [] (i - s) = true)) lo hi ↔ (lo = a ∧ hi = b) := by
      intro lo hi
      have hT : ∀ i, (s ≤ i ∧ acceptedAt k [] (i - s) = true) → b < i := by
        rintro i ⟨-, h⟩
        simp [acceptedAt] at h
      refine (IsRun_split a b _ hab hT lo hi).trans ?_
      constructor
      · rintro (h | ⟨hlt, hall, -, -⟩)
        · exact h
        · have := (hall lo le_rfl hlt).2
          simp [acceptedAt] at this
      · exact Or.inl
    refine ⟨?_, by simp [acceptedPairs, chainFrom]⟩
    intro p
    simp only [acceptedPairs, List.filter_nil, List.map_nil, chainFrom, List.mem_singleton]
    constructor
    · rintro rfl
      exact ⟨a, b, rfl, (hrun a b).2 ⟨rfl, rfl⟩⟩
    · rintro ⟨lo, hi, rfl, h⟩
      obtain ⟨rfl, rfl⟩ := (hrun lo hi).1 h
      rfl
  | cons m ms ih =>
    intro s a b hab hbs hadj
    obtain ⟨hid1, hid2, hadj'⟩ := hadj
    by_cases hk : k < m.matches_.length
    · rw [acceptedPairs_cons_of_lt k m ms hk, hid1, hid2]
      by_cases hb : b = s
      · subst hb
        have hstep : chainFrom (consecutiveIds a b) (b : Int)
            (((b : Int), (b : Int) + 1) :: acceptedPairs k ms)
            = chainFrom (consecutiveIds a (b + 1)) ((b + 1 : Nat) : Int) (acceptedPairs k ms) := by
          rw [chainFrom, if_pos rfl, consecutiveIds_succ a b (by omega)]
          rfl
        rw [hstep]
        obtain ⟨hmem, hpw⟩ := ih (b + 1) a (b + 1) (by omega) le_rfl hadj'
        refine ⟨?_, hpw⟩
        intro p
        rw [hmem p]
        have hc : ∀ i, ((a ≤ i ∧ i < b + 1) ∨
            (b + 1 ≤ i ∧ acceptedAt k ms (i - (b + 1)) = true)) ↔
            ((a ≤ i ∧ i < b) ∨ (b ≤ i ∧ acceptedAt k (m :: ms) (i - b) = true)) := by
          intro i
          rw [acceptedAt_shift]
          constructor
          · rintro (⟨h1, h2⟩ | h)
            · by_cases hi : i = b
              · exact Or.inr (Or.inl ⟨hi, hk⟩)
              · exact Or.inl ⟨h1, by omega⟩
            · exact Or.inr (Or.inr h)
          · rintro (⟨h1, h2⟩ | ⟨h1, -⟩ | h)
            · exact Or.inl ⟨h1, by omega⟩
            · exact Or.inl ⟨by omega, by omega⟩
            · exact Or.inr h
        constructor
        · rintro ⟨lo, hi, hp, hr⟩
          exact ⟨lo, hi, hp, (IsRun_congr hc lo hi).1 hr⟩
        · rintro ⟨lo, hi, hp, hr⟩
          exact ⟨lo, hi, hp, (IsRun_congr hc lo hi).2 hr⟩
      · have hlt : b < s := by omega
        have hstep : chainFrom (consecutiveIds a b) (b : Int)
            (((s : Int), (s : Int) + 1) :: acceptedPairs k ms)
            = consecutiveIds a b ::
              chainFrom (consecutiveIds s (s + 1)) ((s + 1 : Nat) : Int) (acceptedPairs k ms) := by
          have hne : ¬ ((s : Int) = (b : Int)) := by omega
          rw [chainFrom, if_neg hne, consecutiveIds_pair]
          rfl
        rw [hstep]
        obtain ⟨hmem, hpw⟩ := ih (s + 1) s (s + 1) (by omega) le_rfl hadj'
        have hc : ∀ i, ((s ≤ i ∧ i < s + 1) ∨
            (s + 1 ≤ i ∧ acceptedAt k ms (i - (s + 1)) = true)) ↔
            (s ≤ i ∧ acceptedAt k (m :: ms) (i - s) = true) := by
          intro i
          rw [acceptedAt_shift]
          constructor
          · rintro (⟨h1, h2⟩ | h)
            · exact Or.inl ⟨by omega, hk⟩
            · exact Or.inr h
          · rintro (⟨h1, -⟩ | h)
            · exact Or.inl ⟨by omega, by omega⟩
            · exact Or.inr h
        have hT : ∀ i, (s ≤ i ∧ acceptedAt k (m :: ms) (i - s) = true) → b < i := by
          rintro i ⟨h, -⟩
          omega
        have hsplit := fun lo hi => IsRun_split a b _ hab hT lo hi
        have htail : ∀ q ∈ chainFrom (consecutiveIds s (s + 1)) ((s + 1 : Nat) : Int)
            (acceptedPairs k ms), ∀ y ∈ q, (s : Int) ≤ y := by
          intro q hq y hy
          obtain ⟨lo, hi, rfl, hr⟩ := (hmem q).1 hq
          obtain ⟨j, hj1, -, rfl⟩ := mem_consecutiveIds hy
          have hlo := (IsRun_congr hc lo hi).1 hr
          have := (hlo.2.1 lo le_rfl hlo.1).1
          omega
        refine ⟨?_, ?_⟩
        · intro p
          rw [List.mem_cons, hmem p]
          constructor
          · rintro (rfl | ⟨lo, hi, hp, hr⟩)
            · exact ⟨a, b, rfl, (hsplit a b).2 (Or.inl ⟨rfl, rfl⟩)⟩
            · exact ⟨lo, hi, hp, (hsplit lo hi).2 (Or.inr ((IsRun_congr hc lo hi).1 hr))⟩
          · rintro ⟨lo, hi, hp, hr⟩
            rcases (hsplit lo hi).1 hr with ⟨rfl, rfl⟩ | h
            · exact Or.inl hp
            · exact Or.inr ⟨lo, hi, hp, (IsRun_congr hc lo hi).2 h⟩
        · rw [List.pairwise_cons]
          refine ⟨?_, hpw⟩
          intro q hq x hx y hy
          have h1 := htail q hq y hy
          obtain ⟨i, -, hi2, rfl⟩ := mem_consecutiveIds hx
          omega
    · rw [acceptedPairs_cons_of_not_lt k m ms hk]
      obtain ⟨hmem, hpw⟩ := ih (s + 1) a b hab (by omega) hadj'
      refine ⟨?_, hpw⟩
      intro p
      rw [hmem p]
      have hc : ∀ i, ((a ≤ i ∧ i < b) ∨
          (s + 1 ≤ i ∧ acceptedAt k ms (i - (s + 1)) = true)) ↔
          ((a ≤ i ∧ i < b) ∨ (s ≤ i ∧ acceptedAt k (m :: ms) (i - s) = true)) := by
        intro i
        rw [acceptedAt_shift]
        constructor
        · rintro (h | h)
          · exact Or.inl h
          · exact Or.inr (Or.inr h)
        · rintro (h | ⟨-, h⟩ | h)
          · exact Or.inl h
          · exact absurd h hk
          · exact Or.inr h
      constructor
      · rintro ⟨lo, hi, hp, hr⟩
        exact ⟨lo, hi, hp, (IsRun_congr hc lo hi).1 hr⟩
      · rintro ⟨lo, hi, hp, hr⟩
        exact ⟨lo, hi, hp, (IsRun_congr hc lo hi).2 hr⟩

theorem greedyChain_adjacent (k : Nat) :
    ∀ (ms : List Match) (s : Nat), AdjacentFrom s ms →
      (∀ p, p ∈ greedyChain (acceptedPairs k ms) ↔
        ∃ lo hi, p = consecutiveIds lo hi ∧
          IsRun (fun i => s ≤ i ∧ acceptedAt k ms (i - s) = true) lo hi) ∧
      List.Pairwise (fun p q : List Int => ∀ x ∈ p, ∀ y ∈ q, x < y)
        (greedyChain (acceptedPairs k ms)) := by
  intro ms
  induction ms with
  | nil =>
    intro s _
    refine ⟨?_, by simp [acceptedPairs, greedyChain]⟩
    intro p
    simp only [acceptedPairs, List.filter_nil, List.map_nil, greedyChain, List.not_mem_nil,
      false_iff]
    rintro ⟨lo, hi, -, hlt, hall, -, -⟩
    have := (hall lo le_rfl hlt).2
    simp [acceptedAt] at this
  | cons m ms ih =>
    intro s hadj
    obtain ⟨hid1, hid2, hadj'⟩ := hadj
    by_cases hk : k < m.matches_.length
    · rw [acceptedPairs_cons_of_lt k m ms hk, hid1, hid2]
      have hstep : greedyChain (((s : Int), (s : Int) + 1) :: acceptedPairs k ms)
          = chainFrom (consecutiveIds s (s + 1)) ((s + 1 : Nat) : Int) (acceptedPairs k ms) := by
        rw [greedyChain, consecutiveIds_pair]
        rfl
      rw [hstep]
      obtain ⟨hmem, hpw⟩ := chainFrom_adjacent k ms (s + 1) s (s + 1) (by omega) le_rfl hadj'
      refine ⟨?_, hpw⟩
      intro p
      rw [hmem p]
      have hc : ∀ i, ((s ≤ i ∧ i < s + 1) ∨
          (s + 1 ≤ i ∧ acceptedAt k ms (i - (s + 1)) = true)) ↔
          (s ≤ i ∧ acceptedAt k (m :: ms) (i - s) = true) := by
        intro i
        rw [acceptedAt_shift]
        constructor
        · rintro (⟨h1, h2⟩ | h)
          · exact Or.inl ⟨by omega, hk⟩
          · exact Or.inr h
        · rintro (⟨h1, -⟩ | h)
          · exact Or.inl ⟨by omega, by omega⟩
          · exact Or.inr h
      constructor
      · rintro ⟨lo, hi, hp, hr⟩
        exact ⟨lo, hi, hp, (IsRun_congr hc lo hi).1 hr⟩
      · rintro ⟨lo, hi, hp, hr⟩
        exact ⟨lo, hi, hp, (IsRun_congr hc lo hi).2 hr⟩
    · rw [acceptedPairs_cons_of_not_lt k m ms hk]
      obtain ⟨hmem, hpw⟩ := ih (s + 1) hadj'
      refine ⟨?_, hpw⟩
      intro p
      rw [hmem p]
      have hc : ∀ i, (s + 1 ≤ i ∧ acceptedAt k ms (i - (s + 1)) = true) ↔
          (s ≤ i ∧ acceptedAt k (m :: ms) (i - s) = true) := by
        intro i
        rw [acceptedAt_shift]
        constructor
        · exact Or.inr
        · rintro (⟨-, h⟩ | h)
          · exact absurd h hk
          · exact h
      constructor
      · rintro ⟨lo, hi, hp, hr⟩
        exact ⟨lo, hi, hp, (IsRun_congr hc lo hi).1 hr⟩
      · rintro ⟨lo, hi, hp, hr⟩
        exact ⟨lo, hi, hp, (IsRun_congr hc lo hi).2 hr⟩

theorem adjacentFrom_of_map :
    ∀ (ms : List Match) (s len : Nat),
      ms.map (fun m => (m.id1, m.id2))
        = (List.range' s len).map (fun i : Nat => ((i : Int), (i : Int) + 1)) →
      AdjacentFrom s ms := by
  intro ms
  induction ms with
  | nil => intro s len _; trivial
  | cons m ms ih =>
    intro s len h
    cases len with
    | zero => simp at h
    | succ len =>
      simp only [List.map_cons, List.range'_succ, List.cons.injEq, Prod.mk.injEq] at h
      exact ⟨h.1.1, h.1.2, ih (s + 1) len h.2⟩

theorem acceptedPairs_adjacent (k : Nat) :
    ∀ (ms : List Match) (s : Nat), AdjacentFrom s ms →
      acceptedPairs k ms
        = ((List.range ms.length).filter (fun i => acceptedAt k ms i)).map
            (fun i : Nat => (((s + i : Nat) : Int), ((s + i : Nat) : Int) + 1)) := by
  intro ms
  induction ms with
  | nil => intro s _; simp [acceptedPairs]
  | cons m ms ih =>
    intro s hadj
    obtain ⟨hid1, hid2, hadj'⟩ := hadj
    have hsucc : ∀ i, acceptedAt k (m :: ms) (i + 1) = acceptedAt k ms i := by
      intro i; simp [acceptedAt]
    have hzero : acceptedAt k (m :: ms) 0 = decide (k < m.matches_.length) := by
      simp [acceptedAt]
    have htail : ((List.range ms.length).map Nat.succ).filter (fun i => acceptedAt k (m :: ms) i)
        = ((List.range ms.length).filter (fun i => acceptedAt k ms i)).map Nat.succ := by
      rw [List.filter_map]
      congr 1
      apply List.filter_congr
      intro i _
      simp [hsucc]
    have hmap : ((List.range ms.length).filter (fun i => acceptedAt k ms i)).map
          (fun i : Nat => (((s + 1 + i : Nat) : Int), ((s + 1 + i : Nat) : Int) + 1))
        = (((List.range ms.length).filter (fun i => acceptedAt k ms i)).map Nat.succ).map
          (fun i : Nat => (((s + i : Nat) : Int), ((s + i : Nat) : Int) + 1)) := by
      rw [List.map_map]
      apply List.map_congr_left
      intro i _
      have e : s + 1 + i = s + Nat.succ i := by omega
      simp [e]
    rw [List.length_cons, List.range_succ_eq_map, List.filter_cons, hzero, htail]
    by_cases hk : k < m.matches_.length
    · rw [acceptedPairs_cons_of_lt k m ms hk, if_pos (by simpa using hk), List.map_cons,
        ← hmap, ← ih (s + 1) hadj', hid1, hid2]
      simp
    · rw [acceptedPairs_cons_of_not_lt k m ms hk, if_neg (by simpa using hk), ← hmap,
        ← ih (s + 1) hadj']

theorem FindPanos_of_acceptedPairs (k : Nat) (ms : List Match) (pairs : List (Int × Int))
    (h : acceptedPairs k ms = pairs) :
    FindPanos k ms = (greedyChain pairs).map Pano.mk := by
  rw [FindPanos_eq_greedyChain, h]

theorem FindPanos_chain' (R : Int → Int → Prop) (k : Nat) (ms : List Match)
    (hR : ∀ m ∈ ms, k < m.matches_.length → R m.id1 m.id2) :
    ∀ p ∈ FindPanos k ms, List.Chain' R p.ids := by
  intro p hp
  rw [FindPanos_eq_greedyChain, List.mem_map] at hp
  obtain ⟨q, hq, rfl⟩ := hp
  refine greedyChain_chain' R (acceptedPairs k ms) ?_ q hq
  intro ab hab
  obtain ⟨m, hm, h1, h2, hk⟩ := mem_acceptedPairs hab
  rw [← h1, ← h2]
  exact hR m hm hk

/-! ## The claims about `FindPanos` -/

/-- C1: for every list of matches, `FindPanos` equals the greedy chain reference
applied to the accepted matches (more than `kMatchThreshold` correspondences) in
input order, the panos in the order they were started, the last one included. -/
theorem FindPanos_refines_greedyChain (kMatchThreshold : Nat) (ms : List Match) :
    FindPanos kMatchThreshold ms
      = (greedyChain (acceptedPairs kMatchThreshold ms)).map Pano.mk :=
  FindPanos_eq_greedyChain kMatchThreshold ms

/-- C2: when the input lists the adjacency matches `(i, i+1)` for `i = 0..n-2` in
increasing `i`, the panos returned by `FindPanos` are exactly the maximal runs of
consecutive image indices linked by accepted matches, each run once with its ids
in increasing order, the runs in increasing order. In particular, for 10 images
with accepted positions 1, 2, 3, 4, 6, 7 the result is `[1,2,3,4,5]`, `[6,7,8]`, and
for 3 images with both matches accepted it is `[0,1,2]`. -/
theorem FindPanos_adjacent_maximal_runs (kMatchThreshold n : Nat) (ms : List Match)
    (hadj : ms.map (fun m => (m.id1, m.id2))
      = (List.range (n - 1)).map (fun i : Nat => ((i : Int), (i : Int) + 1))) :
    (∀ p, p ∈ FindPanos kMatchThreshold ms ↔
      ∃ lo hi, IsMaximalRun kMatchThreshold ms lo hi ∧ p = ⟨consecutiveIds lo hi⟩) ∧
    (FindPanos kMatchThreshold ms).Pairwise (fun p q => ∀ x ∈ p.ids, ∀ y ∈ q.ids, x < y) ∧
    (n = 10 → (∀ i, acceptedAt kMatchThreshold ms i = true ↔ i ∈ [1, 2, 3, 4, 6, 7]) →
      FindPanos kMatchThreshold ms = [⟨[1, 2, 3, 4, 5]⟩, ⟨[6, 7, 8]⟩]) ∧
    (n = 3 → (∀ i, acceptedAt kMatchThreshold ms i = true ↔ i ∈ [0, 1]) →
      FindPanos kMatchThreshold ms = [⟨[0, 1, 2]⟩]) := by
  have hA : AdjacentFrom 0 ms := by
    rw [List.range_eq_range'] at hadj
    exact adjacentFrom_of_map ms 0 (n - 1) hadj
  have hlen : ms.length = n - 1 := by
    have := congrArg List.length hadj
    simpa using this
  obtain ⟨hmem, hpw⟩ := greedyChain_adjacent kMatchThreshold ms 0 hA
  have hc : ∀ i, (0 ≤ i ∧ acceptedAt kMatchThreshold ms (i - 0) = true) ↔
      acceptedAt kMatchThreshold ms i = true := by
    intro i; simp
  have hpairs := acceptedPairs_adjacent kMatchThreshold ms 0 hA
  refine ⟨?_, ?_, ?_, ?_⟩
  · intro p
    rw [FindPanos_eq_greedyChain, List.mem_map]
    constructor
    · rintro ⟨q, hq, rfl⟩
      obtain ⟨lo, hi, rfl, hr⟩ := (hmem q).1 hq
      exact ⟨lo, hi, (IsRun_congr hc lo hi).1 hr, rfl⟩
    · rintro ⟨lo, hi, hr, rfl⟩
      exact ⟨consecutiveIds lo hi,
        (hmem _).2 ⟨lo, hi, rfl, (IsRun_congr hc lo hi).2 hr⟩, rfl⟩
  · rw [FindPanos_eq_greedyChain, List.pairwise_map]
    exact hpw
  · intro hn hacc
    have hf : (List.range ms.length).filter (fun i => acceptedAt kMatchThreshold ms i)
        = (List.range 9).filter (fun i => decide (i ∈ [1, 2, 3, 4, 6, 7])) := by
      rw [hlen, hn]
      apply List.filter_congr
      intro i _
      by_cases h : i ∈ [1, 2, 3, 4, 6, 7]
      · rw [(hacc i).2 h]; exact (decide_eq_true h).symm
      · have h1 : acceptedAt kMatchThreshold ms i ≠ true := fun e => h ((hacc i).1 e)
        rw [Bool.eq_false_iff.2 h1]; exact (decide_eq_false h).symm
    rw [hf] at hpairs
    rw [FindPanos_of_acceptedPairs kMatchThreshold ms _ hpairs]
    decide
  · intro hn hacc
    have hf : (List.range ms.length).filter (fun i => acceptedAt kMatchThreshold ms i)
        = (List.range 2).filter (fun i => decide (i ∈ [0, 1])) := by
      rw [hlen, hn]
      apply List.filter_congr
      intro i _
      by_cases h : i ∈ [0, 1]
      · rw [(hacc i).2 h]; exact (decide_eq_true h).symm
      · have h1 : acceptedAt kMatchThreshold ms i ≠ true := fun e => h ((hacc i).1 e)
        rw [Bool.eq_false_iff.2 h1]; exact (decide_eq_false h).symm
    rw [hf] at hpairs
    rw [FindPanos_of_acceptedPairs kMatchThreshold ms _ hpairs]
    decide

/-- C2, at the inputs of the two pipeline tests with threshold 70: ten images
with the matches at positions 1, 2, 3, 4, 6, 7 accepted, and three images with
both matches accepted. -/
theorem FindPanos_adjacent_maximal_runs_witness :
    FindPanos 70 [mkMatch 0 1 12, mkMatch 1 2 71, mkMatch 2 3 80, mkMatch 3 4 90,
        mkMatch 4 5 100, mkMatch 5 6 70, mkMatch 6 7 75, mkMatch 7 8 71, mkMatch 8 9 0]
      = [⟨[1, 2, 3, 4, 5]⟩, ⟨[6, 7, 8]⟩] ∧
    FindPanos 70 [mkMatch 0 1 71, mkMatch 1 2 72] = [⟨[0, 1, 2]⟩] := by
  constructor
  · refine (FindPanos_adjacent_maximal_runs 70 10 _ (by decide)).2.2.1 rfl ?_
    intro i
    by_cases hi : i < 9
    · interval_cases i <;> decide
    · have h1 : i ∉ [1, 2, 3, 4, 6, 7] := by
        intro h; simp at h; omega
      have h2 : acceptedAt 70 [mkMatch 0 1 12, mkMatch 1 2 71, mkMatch 2 3 80, mkMatch 3 4 90,
          mkMatch 4 5 100, mkMatch 5 6 70, mkMatch 6 7 75, mkMatch 7 8 71, mkMatch 8 9 0] i
          = false := by
        unfold acceptedAt
        rw [List.getElem?_eq_none (by simp; omega)]
      simp [h1, h2]
  · refine (FindPanos_adjacent_maximal_runs 70 3 _ (by decide)).2.2.2 rfl ?_
    intro i
    by_cases hi : i < 2
    · interval_cases i <;> decide
    · have h1 : i ∉ [0, 1] := by
        intro h; simp at h; omega
      have h2 : acceptedAt 70 [mkMatch 0 1 71, mkMatch 1 2 72] i = false := by
        unfold acceptedAt
        rw [List.getElem?_eq_none (by simp; omega)]
      simp [h1, h2]

/-- C3: the code at the accepted matches of the shuffled test input,
`(0,2), (1,3), (2,4), (3,6), (4,7), (7,9)` in this order: `FindPanos` closes a pano
at every match whose first id is not the last id of the current pano, and returns
the five panos `[0,2]`, `[1,3]`, `[2,4]`, `[3,6]`, `[4,7,9]`, not the two panos
`[0,2,4,7,9]` and `[1,3,6]` that the test asserts. -/
theorem FindPanos_interleaved_series (kMatchThreshold : Nat) :
    FindPanos kMatchThreshold
        [mkMatch 0 2 (kMatchThreshold + 1), mkMatch 1 3 (kMatchThreshold + 1),
         mkMatch 2 4 (kMatchThreshold + 1), mkMatch 3 6 (kMatchThreshold + 1),
         mkMatch 4 7 (kMatchThreshold + 1), mkMatch 7 9 (kMatchThreshold + 1)]
      = [⟨[0, 2]⟩, ⟨[1, 3]⟩, ⟨[2, 4]⟩, ⟨[3, 6]⟩, ⟨[4, 7, 9]⟩] ∧
    FindPanos kMatchThreshold
        [mkMatch 0 2 (kMatchThreshold + 1), mkMatch 1 3 (kMatchThreshold + 1),
         mkMatch 2 4 (kMatchThreshold + 1), mkMatch 3 6 (kMatchThreshold + 1),
         mkMatch 4 7 (kMatchThreshold + 1), mkMatch 7 9 (kMatchThreshold + 1)]
      ≠ [⟨[0, 2, 4, 7, 9]⟩, ⟨[1, 3, 6]⟩] := by
  have h : acceptedPairs kMatchThreshold
      [mkMatch 0 2 (kMatchThreshold + 1), mkMatch 1 3 (kMatchThreshold + 1),
       mkMatch 2 4 (kMatchThreshold + 1), mkMatch 3 6 (kMatchThreshold + 1),
       mkMatch 4 7 (kMatchThreshold + 1), mkMatch 7 9 (kMatchThreshold + 1)]
      = [(0, 2), (1, 3), (2, 4), (3, 6), (4, 7), (7, 9)] := by
    simp [acceptedPairs, mkMatch]
  rw [FindPanos_of_acceptedPairs _ _ _ h]
  constructor <;> decide

/-- C4, as stated, fails: with threshold 1 the accepted matches `(0,1)`, `(1,0)`
give the single pano `[0,1,0]`, in which image 0 occurs twice. -/
theorem FindPanos_repeated_id_counterexample :
    ¬ (∀ p ∈ FindPanos 1 [mkMatch 0 1 2, mkMatch 1 0 2], p.ids.Nodup) := by
  decide

/-- C4, amended: when every accepted match (more than `kMatchThreshold`
correspondences) has `id1 < id2`, no image index occurs more than once in the ids
of any pano that `FindPanos` returns. -/
theorem FindPanos_nodup_of_accepted_lt (kMatchThreshold : Nat) (ms : List Match)
    (hlt : ∀ m ∈ ms, kMatchThreshold < m.matches_.length → m.id1 < m.id2) :
    ∀ p ∈ FindPanos kMatchThreshold ms, p.ids.Nodup := by
  intro p hp
  have hc := FindPanos_chain' (fun a b => a < b) kMatchThreshold ms hlt p hp
  have hpw : p.ids.Pairwise (fun a b => a < b) := List.chain'_iff_pairwise.1 hc
  exact hpw.imp (fun h => ne_of_lt h)

/-- C4, amended, at a concrete input: the rejected match `(5,2)` may have
`id1 > id2`; the panos `[0,1,2]` and `[4,5]` have no repeated index. -/
theorem FindPanos_nodup_of_accepted_lt_witness :
    (∀ m ∈ [mkMatch 0 1 3, mkMatch 1 2 3, mkMatch 5 2 2, mkMatch 4 5 7],
      2 < m.matches_.length → m.id1 < m.id2) ∧
    (∀ p ∈ FindPanos 2 [mkMatch 0 1 3, mkMatch 1 2 3, mkMatch 5 2 2, mkMatch 4 5 7],
      p.ids.Nodup) :=
  ⟨by decide, FindPanos_nodup_of_accepted_lt 2 _ (by decide)⟩

/-- C5: every pano that `FindPanos` returns is a path of accepted matches: each
two neighbouring ids `(a, b)` of the pano are the `id1`, `id2` of a match of the
input with more than `kMatchThreshold` correspondences. -/
theorem FindPanos_path_of_accepted (kMatchThreshold : Nat) (ms : List Match) :
    ∀ p ∈ FindPanos kMatchThreshold ms,
      List.Chain' (fun a b => ∃ m ∈ ms, m.id1 = a ∧ m.id2 = b ∧
        m.matches_.length > kMatchThreshold) p.ids :=
  FindPanos_chain' _ kMatchThreshold ms (fun m hm hk => ⟨m, hm, rfl, rfl, hk⟩)

/-- C5, at a concrete input: the pano `[0,1,2]` is returned, and its neighbouring
ids `(0,1)` and `(1,2)` are accepted matches of the input. -/
theorem FindPanos_path_of_accepted_witness :
    (⟨[0, 1, 2]⟩ : Pano)
      ∈ FindPanos 2 [mkMatch 0 1 3, mkMatch 1 2 3, mkMatch 5 6 2, mkMatch 4 5 7] ∧
    List.Chain' (fun a b =>
        ∃ m ∈ [mkMatch 0 1 3, mkMatch 1 2 3, mkMatch 5 6 2, mkMatch 4 5 7],
          m.id1 = a ∧ m.id2 = b ∧ m.matches_.length > 2) [0, 1, 2] :=
  ⟨by decide, FindPanos_path_of_accepted 2 _ ⟨[0, 1, 2]⟩ (by decide)⟩

/-- C6: `FindPanos` returns the same result after every match with at most
`kMatchThreshold` correspondences (exactly `kMatchThreshold` included) is removed
from the list, wherever those matches stand. -/
theorem FindPanos_filter_rejected (kMatchThreshold : Nat) (ms : List Match) :
    FindPanos kMatchThreshold
        (ms.filter (fun m => !decide (m.matches_.length ≤ kMatchThreshold)))
      = FindPanos kMatchThreshold ms := by
  rw [FindPanos_eq_greedyChain, FindPanos_eq_greedyChain, acceptedPairs_filter]

/-- C7: `FindPanos` is order-sensitive: for every threshold, the accepted matches
`(0,1), (1,2)` give the one pano `[0,1,2]`, while the permuted list `(1,2), (0,1)`
gives the two panos `[1,2]` and `[0,1]`, a different set of panos that splits the
connected images 0, 1, 2. -/
theorem FindPanos_order_sensitive (kMatchThreshold : Nat) :
    ∃ ms1 ms2 : List Match, ms1.Perm ms2 ∧
      acceptedPairs kMatchThreshold ms1 = [(0, 1), (1, 2)] ∧
      acceptedPairs kMatchThreshold ms2 = [(1, 2), (0, 1)] ∧
      FindPanos kMatchThreshold ms1 = [⟨[0, 1, 2]⟩] ∧
      FindPanos kMatchThreshold ms2 = [⟨[1, 2]⟩, ⟨[0, 1]⟩] ∧
      ¬ (∀ p, p ∈ FindPanos kMatchThreshold ms1 ↔ p ∈ FindPanos kMatchThreshold ms2) := by
  have h1 : acceptedPairs kMatchThreshold
      [mkMatch 0 1 (kMatchThreshold + 1), mkMatch 1 2 (kMatchThreshold + 1)]
      = [(0, 1), (1, 2)] := by
    simp [acceptedPairs, mkMatch]
  have h2 : acceptedPairs kMatchThreshold
      [mkMatch 1 2 (kMatchThreshold + 1), mkMatch 0 1 (kMatchThreshold + 1)]
      = [(1, 2), (0, 1)] := by
    simp [acceptedPairs, mkMatch]
  refine ⟨[mkMatch 0 1 (kMatchThreshold + 1), mkMatch 1 2 (kMatchThreshold + 1)],
    [mkMatch 1 2 (kMatchThreshold + 1), mkMatch 0 1 (kMatchThreshold + 1)],
    List.Perm.swap _ _ _, h1, h2, ?_, ?_, ?_⟩
  · rw [FindPanos_of_acceptedPairs _ _ _ h1]; decide
  · rw [FindPanos_of_acceptedPairs _ _ _ h2]; decide
  · rw [FindPanos_of_acceptedPairs _ _ _ h1, FindPanos_of_acceptedPairs _ _ _ h2]
    intro h
    have := (h ⟨[0, 1, 2]⟩).1 (by decide)
    revert this
    decide

/-- C8: `FindPanos` returns no pano exactly when no match of the input has more
than `kMatchThreshold` correspondences; the empty match list gives no panos; and
no vector access of `FindPanos` is ever outside its vector, the empty accepted
list included. -/
theorem FindPanos_empty_iff (kMatchThreshold : Nat) (ms : List Match) :
    (FindPanos kMatchThreshold ms = [] ↔
      ∀ m ∈ ms, ¬ (m.matches_.length > kMatchThreshold)) ∧
    FindPanos kMatchThreshold [] = [] ∧
    FindPanosChecked kMatchThreshold [] = some [] ∧
    FindPanosChecked kMatchThreshold ms = some (FindPanos kMatchThreshold ms) := by
  refine ⟨?_, ?_, ?_, FindPanosChecked_eq kMatchThreshold ms⟩
  · rw [FindPanos_eq_nil_iff]
    constructor
    · intro h m hm; have := h m hm; omega
    · intro h m hm; have := h m hm; omega
  · rfl
  · rfl

/-! ## `MatchImages` -/

theorem foldlM_ratioStep (cv : CvOps) (knn : List (List DMatch))
    (hwf : ∀ row ∈ knn, 2 ≤ row.length) :
    ∀ acc : List DMatch,
      knn.foldlM (ratioStep cv) acc = some (acc ++ ratioSurvivors cv knn) := by
  induction knn with
  | nil => intro acc; simp [ratioSurvivors]
  | cons row knn ih =>
    intro acc
    have hrow := hwf row (by simp)
    have hwf' : ∀ r ∈ knn, 2 ≤ r.length := fun r hr => hwf r (by simp [hr])
    match row, hrow with
    | m0 :: m1 :: rest, _ =>
      by_cases hb : cv.ratioBelow m0 m1 = true
      · have hstep : ratioStep cv acc (m0 :: m1 :: rest) = some (acc ++ [m0]) := by
          simp [ratioStep, hb]
        rw [List.foldlM_cons, hstep]
        simp only [Option.bind_eq_bind, Option.some_bind]
        rw [ih hwf']
        simp [ratioSurvivors, hb]
      · have hstep : ratioStep cv acc (m0 :: m1 :: rest) = some acc := by
          simp [ratioStep, hb]
        rw [List.foldlM_cons, hstep]
        simp only [Option.bind_eq_bind, Option.some_bind]
        rw [ih hwf']
        simp [ratioSurvivors, hb]

theorem ratioFilter_eq (cv : CvOps) (knn : List (List DMatch))
    (hwf : ∀ row ∈ knn, 2 ≤ row.length) :
    ratioFilter cv knn = some (ratioSurvivors cv knn) := by
  unfold ratioFilter
  rw [foldlM_ratioStep cv knn hwf []]
  simp

/-- C10: `MatchImages` returns the empty list when either image has no keypoints;
when fewer than 4 candidate correspondences pass the ratio test; and when
homography estimation returns an empty matrix. With 4 or more survivors (exactly
4 included) it proceeds to homography estimation, whose outcome decides the
result. The k-nn rows are assumed to hold the best and the second-best match. -/
theorem MatchImages_failure_is_empty (cv : CvOps) (img1 img2 : Image) :
    ((img1.keypoints = [] ∨ img2.keypoints = []) → MatchImages cv img1 img2 = some []) ∧
    (img1.keypoints ≠ [] → img2.keypoints ≠ [] →
      (∀ row ∈ cv.knnMatch img1.descriptors img2.descriptors 2, 2 ≤ row.length) →
      ((ratioSurvivors cv (cv.knnMatch img1.descriptors img2.descriptors 2)).length < 4 →
        MatchImages cv img1 img2 = some []) ∧
      (4 ≤ (ratioSurvivors cv (cv.knnMatch img1.descriptors img2.descriptors 2)).length →
        MatchImages cv img1 img2 = homographyStage cv img1 img2
          (ratioSurvivors cv (cv.knnMatch img1.descriptors img2.descriptors 2)))) ∧
    (∀ good src dst,
      good.mapM (fun m => (atIdx img1.keypoints m.queryIdx).map (fun kp => kp.pt)) = some src →
      good.mapM (fun m => (atIdx img2.keypoints m.trainIdx).map (fun kp => kp.pt)) = some dst →
      homographyStage cv img1 img2 good
          = (if (cv.findHomography src dst).isEmpty then some []
             else filterOutliers cv good dst
               (cv.perspectiveTransform src (cv.findHomography src dst))) ∧
      (cv.findHomography src dst = [] → homographyStage cv img1 img2 good = some [])) := by
  refine ⟨?_, ?_, ?_⟩
  · rintro (h | h)
    · simp [MatchImages, h]
    · simp [MatchImages, h]
  · intro h1 h2 hwf
    have hk : (img1.keypoints.isEmpty || img2.keypoints.isEmpty) = false := by
      simp [List.isEmpty_iff, h1, h2]
    constructor
    · intro hlt
      simp [MatchImages, hk, ratioFilter_eq cv _ hwf, hlt]
    · intro hge
      have : ¬ (ratioSurvivors cv (cv.knnMatch img1.descriptors img2.descriptors 2)).length < 4 := by
        omega
      simp [MatchImages, hk, ratioFilter_eq cv _ hwf, this]
  · intro good src dst hsrc hdst
    have hstage : homographyStage cv img1 img2 good
        = (if (cv.findHomography src dst).isEmpty then some []
           else filterOutliers cv good dst
             (cv.perspectiveTransform src (cv.findHomography src dst))) := by
      unfold homographyStage
      rw [hsrc, hdst]
      rfl
    refine ⟨hstage, ?_⟩
    intro he
    rw [hstage, he]
    rfl

/-- C10, evaluated: an image without keypoints, three survivors, four survivors
with a non-empty homography (all four are inliers), and four survivors with an
empty homography. -/
theorem MatchImages_failure_is_empty_witness :
    MatchImages (exampleCv [[1]]) (exampleImage 0) (exampleImage 4) = some [] ∧
    MatchImages (exampleCv [[1]]) (exampleImage 3) (exampleImage 3) = some [] ∧
    MatchImages (exampleCv [[1]]) (exampleImage 4) (exampleImage 4)
      = some [⟨0, 0, 0, 1⟩, ⟨1, 1, 0, 1⟩, ⟨2, 2, 0, 1⟩, ⟨3, 3, 0, 1⟩] ∧
    MatchImages (exampleCv []) (exampleImage 4) (exampleImage 4) = some [] := by
  refine ⟨?_, ?_, ?_, ?_⟩
  · exact (MatchImages_failure_is_empty (exampleCv [[1]]) (exampleImage 0) (exampleImage 4)).1
      (Or.inl rfl)
  · exact ((MatchImages_failure_is_empty (exampleCv [[1]]) (exampleImage 3)
      (exampleImage 3)).2.1 (by decide) (by decide) (by decide)).1 (by decide)
  · exact (((MatchImages_failure_is_empty (exampleCv [[1]]) (exampleImage 4)
      (exampleImage 4)).2.1 (by decide) (by decide) (by decide)).2 (by decide)).trans
      (by decide)
  · have h := MatchImages_failure_is_empty (exampleCv []) (exampleImage 4) (exampleImage 4)
    refine ((h.2.1 (by decide) (by decide) (by decide)).2 (by decide)).trans ?_
    exact (h.2.2 _ [(0, 0), (1, 1), (2, 2), (3, 3)] [(0, 0), (1, 1), (2, 2), (3, 3)]
      (by decide) (by decide)).2 rfl

end xpano.algorithm

namespace xpano.pipeline

/-! ## Progress accounting -/

theorem wrapInt32_eq_self (x : Int) (h1 : -2 ^ 31 ≤ x) (h2 : x < 2 ^ 31) :
    wrapInt32 x = x := by
  unfold wrapInt32
  omega

theorem notifyTimes_eq :
    ∀ (j : Nat) (pm : ProgressMonitor), 0 ≤ pm.done_ → pm.done_ + (j : Int) < 2 ^ 31 →
      pm.notifyTimes j = { pm with done_ := pm.done_ + (j : Int) } := by
  intro j
  induction j with
  | zero => intro pm _ _; simp [ProgressMonitor.notifyTimes]
  | succ j ih =>
    intro pm h0 h1
    have hw : wrapInt32 (pm.done_ + 1) = pm.done_ + 1 :=
      wrapInt32_eq_self _ (by omega) (by push_cast at h1; omega)
    have hstep : pm.NotifyTaskDone = { pm with done_ := pm.done_ + 1 } := by
      simp [ProgressMonitor.NotifyTaskDone, hw]
    rw [ProgressMonitor.notifyTimes, hstep,
      ih { pm with done_ := pm.done_ + 1 } (by simp; omega) (by push_cast at h1; simp; omega)]
    simp only [ProgressMonitor.mk.injEq, true_and, and_true]
    push_cast
    omega

/-- C9: a freshly constructed monitor reports stage `kNone` with
`tasks_done = num_tasks = 0`; and for every stage type `t` and every total `n`
that fits an `int`, after `Reset(t, n)` and `j ≤ n` calls of `NotifyTaskDone` the
report is `{t, j, n}`, so `tasks_done ≤ num_tasks` throughout and the report is
`{t, n, n}` after exactly `n` calls. -/
theorem progress_after_reset (pm : ProgressMonitor) (t : ProgressType) (n : Nat)
    (hn : (n : Int) < 2 ^ 31) :
    ProgressMonitor.fresh.Progress = ⟨ProgressType.kNone, 0, 0⟩ ∧
    (pm.Reset t n).Progress = ⟨t, 0, n⟩ ∧
    (∀ pm1 : ProgressMonitor, pm1.done_ + 1 < 2 ^ 31 → 0 ≤ pm1.done_ →
      pm1.NotifyTaskDone.Progress = ⟨pm1.type_, pm1.done_ + 1, pm1.num_tasks_⟩) ∧
    (∀ j : Nat, j ≤ n →
      ((pm.Reset t n).notifyTimes j).Progress = ⟨t, j, n⟩ ∧
      ((pm.Reset t n).notifyTimes j).Progress.tasks_done
        ≤ ((pm.Reset t n).notifyTimes j).Progress.num_tasks) ∧
    ((pm.Reset t n).notifyTimes n).Progress = ⟨t, n, n⟩ := by
  have key : ∀ j : Nat, j ≤ n → ((pm.Reset t n).notifyTimes j).Progress = ⟨t, j, n⟩ := by
    intro j hj
    rw [notifyTimes_eq j (pm.Reset t n) (by simp [ProgressMonitor.Reset])
      (by simp [ProgressMonitor.Reset]; omega)]
    simp [ProgressMonitor.Progress, ProgressMonitor.Reset]
  refine ⟨rfl, rfl, ?_, ?_, key n le_rfl⟩
  · intro pm1 h1 h0
    simp [ProgressMonitor.NotifyTaskDone, ProgressMonitor.Progress,
      wrapInt32_eq_self _ (show -2 ^ 31 ≤ pm1.done_ + 1 by omega) h1]
  · intro j hj
    rw [key j hj]
    exact ⟨rfl, by simp; exact hj⟩

/-- C9, evaluated: a matching stage of three tasks, after an earlier stage left
the monitor at `{kLoadingImages, 7, 7}`. -/
theorem progress_after_reset_witness :
    ((3 : Nat) : Int) < 2 ^ 31 ∧
    ((ProgressMonitor.mk ProgressType.kLoadingImages 7 7).Reset
        ProgressType.kMatchingImages 3).NotifyTaskDone.NotifyTaskDone.NotifyTaskDone.Progress
      = ⟨ProgressType.kMatchingImages, 3, 3⟩ :=
  ⟨by decide,
    (progress_after_reset (ProgressMonitor.mk ProgressType.kLoadingImages 7 7)
      ProgressType.kMatchingImages 3 (by decide)).2.2.2.2⟩

end xpano.pipeline

namespace xpano.algorithm

/-! ## The matches read off the panos -/

theorem neighbours_cons_cons (x y : Int) (t : List Int) :
    neighbours (x :: y :: t) = (x, y) :: neighbours (y :: t) := by
  simp [neighbours]

theorem neighbours_append_singleton (b : Int) :
    ∀ (cur : List Int) (last : Int), cur.getLast? = some last →
      neighbours (cur ++ [b]) = neighbours cur ++ [(last, b)] := by
  intro cur
  induction cur with
  | nil => intro last h; simp at h
  | cons x t ih =>
    intro last h
    cases t with
    | nil =>
      simp only [List.getLast?_singleton, Option.some.injEq] at h
      subst h
      simp [neighbours]
    | cons y t =>
      have h' : (y :: t).getLast? = some last := by
        rw [List.getLast?_cons_cons] at h
        exact h
      have e := ih last h'
      rw [List.cons_append, List.cons_append, neighbours_cons_cons, ← List.cons_append, e,
        neighbours_cons_cons]
      rfl

theorem chainFrom_accounting (rest : List (Int × Int)) :
    ∀ (cur : List Int) (last : Int), cur.getLast? = some last → 2 ≤ cur.length →
      (chainFrom cur last rest).flatMap neighbours = neighbours cur ++ rest ∧
      (∀ p ∈ chainFrom cur last rest, 2 ≤ p.length) ∧
      (chainFrom cur last rest).length ≤ rest.length + 1 ∧
      ((chainFrom cur last rest).map List.length).sum + 1
        = cur.length + rest.length + (chainFrom cur last rest).length := by
  induction rest with
  | nil =>
    intro cur last _ hlen
    simp [chainFrom, hlen]
  | cons m rest ih =>
    intro cur last hlast hlen
    obtain ⟨a, b⟩ := m
    by_cases h : a = last
    · subst h
      obtain ⟨h1, h2, h3, h4⟩ := ih (cur ++ [b]) b (by simp) (by simp; omega)
      have hstep : chainFrom cur a ((a, b) :: rest) = chainFrom (cur ++ [b]) b rest := by
        simp [chainFrom]
      rw [hstep]
      refine ⟨?_, h2, by simp only [List.length_cons]; omega, ?_⟩
      · rw [h1, neighbours_append_singleton b cur a hlast]
        simp
      · simp only [List.length_append, List.length_cons, List.length_nil] at h4 ⊢
        omega
    · obtain ⟨h1, h2, h3, h4⟩ := ih [a, b] b (by simp) (by simp)
      have hstep : chainFrom cur last ((a, b) :: rest) = cur :: chainFrom [a, b] b rest := by
        simp [chainFrom, h]
      rw [hstep]
      refine ⟨?_, ?_, ?_, ?_⟩
      · rw [List.flatMap_cons, h1]
        simp [neighbours]
      · intro p hp
        rcases List.mem_cons.1 hp with rfl | hp
        · exact hlen
        · exact h2 p hp
      · simp only [List.length_cons]; omega
      · simp only [List.map_cons, List.sum_cons, List.length_cons]
        simp only [List.length_cons, List.length_nil] at h4
        omega

theorem greedyChain_accounting (pairs : List (Int × Int)) :
    (greedyChain pairs).flatMap neighbours = pairs ∧
    (∀ p ∈ greedyChain pairs, 2 ≤ p.length) ∧
    (greedyChain pairs).length ≤ pairs.length ∧
    ((greedyChain pairs).map List.length).sum = pairs.length + (greedyChain pairs).length := by
  cases pairs with
  | nil => simp [greedyChain]
  | cons m rest =>
    obtain ⟨a, b⟩ := m
    obtain ⟨h1, h2, h3, h4⟩ := chainFrom_accounting rest [a, b] b (by simp) (by simp)
    simp only [greedyChain]
    refine ⟨?_, h2, ?_, ?_⟩
    · rw [h1]; simp [neighbours]
    · simp only [List.length_cons]; omega
    · simp only [List.length_cons, List.length_nil] at h4
      simp only [List.length_cons]
      omega

theorem flatMap_map_mk (L : List (List Int)) :
    (L.map Pano.mk).flatMap (fun p => neighbours p.ids) = L.flatMap neighbours := by
  induction L with
  | nil => rfl
  | cons q L ih => simp only [List.map_cons, List.flatMap_cons, ih]

theorem sum_length_map_mk (L : List (List Int)) :
    ((L.map Pano.mk).map (fun p => p.ids.length)).sum = (L.map List.length).sum := by
  induction L with
  | nil => rfl
  | cons q L ih => simp only [List.map_cons, List.sum_cons, ih]

/-! ## Further claims about `FindPanos` -/

/-- C13: `FindPanos` loses and invents no accepted match: the neighbouring id
pairs of the returned panos, pano by pano in order, are exactly the `(id1, id2)` of
the accepted matches in input order. Hence every pano has at least 2 ids, there are
at most as many panos as accepted matches, and the total number of ids is the
number of accepted matches plus the number of panos. -/
theorem FindPanos_neighbours_eq_accepted (kMatchThreshold : Nat) (ms : List Match) :
    (FindPanos kMatchThreshold ms).flatMap (fun p => neighbours p.ids)
      = acceptedPairs kMatchThreshold ms ∧
    (∀ p ∈ FindPanos kMatchThreshold ms, 2 ≤ p.ids.length) ∧
    (FindPanos kMatchThreshold ms).length ≤ (acceptedPairs kMatchThreshold ms).length ∧
    ((FindPanos kMatchThreshold ms).map (fun p => p.ids.length)).sum
      = (acceptedPairs kMatchThreshold ms).length + (FindPanos kMatchThreshold ms).length := by
  obtain ⟨h1, h2, h3, h4⟩ := greedyChain_accounting (acceptedPairs kMatchThreshold ms)
  rw [FindPanos_eq_greedyChain]
  refine ⟨?_, ?_, ?_, ?_⟩
  · rw [flatMap_map_mk, h1]
  · intro p hp
    obtain ⟨q, hq, rfl⟩ := List.mem_map.1 hp
    exact h2 q hq
  · rw [List.length_map]; exact h3
  · rw [sum_length_map_mk, List.length_map]; exact h4

/-- C14: when every match of the input has `id1 < id2`, every pano that
`FindPanos` returns has strictly increasing ids, and therefore no repeated image
index. -/
theorem FindPanos_strictly_increasing (kMatchThreshold : Nat) (ms : List Match)
    (hlt : ∀ m ∈ ms, m.id1 < m.id2) :
    ∀ p ∈ FindPanos kMatchThreshold ms,
      p.ids.Pairwise (fun a b => a < b) ∧ p.ids.Nodup := by
  intro p hp
  have hc := FindPanos_chain' (fun a b => a < b) kMatchThreshold ms
    (fun m hm _ => hlt m hm) p hp
  have hpw : p.ids.Pairwise (fun a b => a < b) := List.chain'_iff_pairwise.1 hc
  exact ⟨hpw, hpw.imp (fun h => ne_of_lt h)⟩

/-- C14, at the accepted matches of the shuffled test input with threshold 70:
every match has `id1 < id2`, and the returned pano `[4,7,9]` is strictly
increasing without a repeated index. -/
theorem FindPanos_strictly_increasing_witness :
    (∀ m ∈ [mkMatch 0 2 71, mkMatch 1 3 71, mkMatch 2 4 71, mkMatch 3 6 71,
        mkMatch 4 7 71, mkMatch 7 9 71], m.id1 < m.id2) ∧
    (⟨[4, 7, 9]⟩ : Pano) ∈ FindPanos 70 [mkMatch 0 2 71, mkMatch 1 3 71, mkMatch 2 4 71,
        mkMatch 3 6 71, mkMatch 4 7 71, mkMatch 7 9 71] ∧
    (List.Pairwise (fun a b : Int => a < b) [4, 7, 9] ∧ List.Nodup ([4, 7, 9] : List Int)) :=
  ⟨by decide, by decide,
    FindPanos_strictly_increasing 70 [mkMatch 0 2 71, mkMatch 1 3 71, mkMatch 2 4 71,
      mkMatch 3 6 71, mkMatch 4 7 71, mkMatch 7 9 71] (by decide) ⟨[4, 7, 9]⟩ (by decide)⟩

/-! ## `ToString` -/

/-- C11: `ToString` maps `OK`, `ERR_NEED_MORE_IMGS`, `ERR_HOMOGRAPHY_EST_FAIL` and
`ERR_CAMERA_PARAMS_ADJUST_FAIL` to their names, four pairwise distinct strings,
and every other status value to `"ERR_UNKNOWN"`; hence `ToString s = "OK"` exactly
when `s` is `OK`. -/
theorem ToString_names_status :
    ToString Stitcher.OK = "OK" ∧
    ToString Stitcher.ERR_NEED_MORE_IMGS = "ERR_NEED_MORE_IMGS" ∧
    ToString Stitcher.ERR_HOMOGRAPHY_EST_FAIL = "ERR_HOMOGRAPHY_EST_FAIL" ∧
    ToString Stitcher.ERR_CAMERA_PARAMS_ADJUST_FAIL = "ERR_CAMERA_PARAMS_ADJUST_FAIL" ∧
    List.Pairwise (fun a b : String => a ≠ b)
      [ToString Stitcher.OK, ToString Stitcher.ERR_NEED_MORE_IMGS,
       ToString Stitcher.ERR_HOMOGRAPHY_EST_FAIL,
       ToString Stitcher.ERR_CAMERA_PARAMS_ADJUST_FAIL] ∧
    (∀ s : Int, s ≠ Stitcher.OK → s ≠ Stitcher.ERR_NEED_MORE_IMGS →
      s ≠ Stitcher.ERR_HOMOGRAPHY_EST_FAIL → s ≠ Stitcher.ERR_CAMERA_PARAMS_ADJUST_FAIL →
      ToString s = "ERR_UNKNOWN") ∧
    (∀ s : Int, ToString s = "OK" ↔ s = Stitcher.OK) := by
  refine ⟨by decide, by decide, by decide, by decide, by decide, ?_, ?_⟩
  · intro s h0 h1 h2 h3
    simp [ToString, h0, h1, h2, h3]
  · intro s
    constructor
    · intro h
      by_contra hne
      unfold ToString at h
      rw [if_neg hne] at h
      split_ifs at h <;> revert h <;> decide
    · rintro rfl
      decide

end xpano.algorithm

namespace xpano.pipeline

/-! ## The worker pool size -/

/-- C12: for every reported hardware parallelism `h`, 0 included, the pool is
constructed with `max(2, h)` threads: at least 2 always, and exactly `h` when
`h ≥ 2`. -/
theorem poolThreads_eq_max (h : Nat) :
    poolThreads h = max 2 h ∧ 2 ≤ poolThreads h ∧ (2 ≤ h → poolThreads h = h) ∧
    poolThreads 0 = 2 := by
  unfold poolThreads stdMax
  refine ⟨?_, ?_, ?_, by decide⟩
  · split_ifs <;> omega
  · split_ifs <;> omega
  · intro h2
    split_ifs <;> omega

end xpano.pipeline
